import Mathlib

/-!
Verification of the Cognito OAuth2 passport strategy (src/lib/strategy.js).

The development shallowly embeds the two pieces of the module:

* the constructor `Strategy(options, verify)`, which derives the OAuth2
  endpoint URLs from the configured domain, delegates option validation to
  the external passport-oauth2 base class, and instantiates the Cognito
  identity-provider client; and

* the method `Strategy.prototype.userProfile(userAccessToken, done)`, which
  sends a GetUser command and, on fulfilment, folds the returned attribute
  list into a profile object by JavaScript property assignment, while any
  rejection (including an exception thrown inside the fulfilment handler,
  which the promise chain converts into a rejection of the chained promise)
  reaches the catch handler and is delivered to the callback as an error.

JavaScript values that may be undefined are modelled as Option; the string
interpolation of undefined inside a template literal produces the text
"undefined", which the model makes explicit.
-/

set_option autoImplicit false

namespace CognitoOAuth2

/-- A single entry of the GetUser response attribute list, a pair of a
Name and a Value as returned by the identity provider. -/
structure Attribute where
  Name : String
  Value : String
deriving DecidableEq

/-- The fulfilment value of the GetUser call. The source reads the fields
Username and UserAttributes from it; either may be absent (undefined) in a
malformed response, and an absent or non-iterable UserAttributes is
modelled as none. -/
structure GetUserResponse where
  Username : Option String
  UserAttributes : Option (List Attribute)
deriving DecidableEq

/-- Errors observable through the catch handler: either the rejection
reason of the identity-provider call itself, or a TypeError thrown while
processing the fulfilment value (for example when iterating a missing
attribute list). -/
inductive JsError where
  | providerError (msg : String)
  | typeError (msg : String)
deriving DecidableEq

/-- A JavaScript object with string-or-undefined values, as built by the
profile-construction loop: an ordered list of key/value entries with
distinct keys (property order is insertion order). -/
abbrev Profile := List (String × Option String)

/-- The ordered key list of a profile object. -/
def keys (p : Profile) : List String := p.map Prod.fst

/-- Property read: the value stored under a key, or none when the key is
absent from the object. -/
def objGet : Profile → String → Option (Option String)
  | [], _ => none
  | (k', v) :: rest, k => if k' = k then some v else objGet rest k

/-- Property assignment, the semantics of writing profile brackets
attribute.Name brackets equal attribute.Value: an existing key keeps its
position and gets the new value, a new key is appended at the end. -/
def objSet : Profile → String → Option String → Profile
  | [], k, v => [(k, v)]
  | (k', v') :: rest, k, v =>
    if k' = k then (k', v) :: rest else (k', v') :: objSet rest k v

/-- The attribute loop of userProfile: starting from the object literal,
assign each attribute of the list in order. -/
def addAttrs (p : Profile) (l : List Attribute) : Profile :=
  l.foldl (fun q a => objSet q a.Name (some a.Value)) p

/-- The body of the fulfilment handler of userProfile: build the object
literal carrying the response username, then run the attribute loop; when
UserAttributes is absent or not iterable the for-of loop throws a
TypeError, which the promise machinery turns into a rejection. -/
def buildProfile (resp : GetUserResponse) : Except JsError Profile :=
  match resp.UserAttributes with
  | some attrs => .ok (addAttrs [("username", resp.Username)] attrs)
  | none => .error (.typeError "getUserResponse.UserAttributes is not iterable")

/-- One invocation of the completion callback done, with its two
arguments. A none component models the null (or absent) argument. -/
structure DoneCall where
  err : Option JsError
  profile : Option Profile
deriving DecidableEq

/-- The sequence of done invocations performed by one run of
Strategy.prototype.userProfile, as a function of the settled outcome of
cognitoClient.send: a fulfilment runs the then handler, whose thrown
exceptions propagate to the catch handler; a rejection runs the catch
handler directly. The model assumes the callback itself returns normally. -/
def userProfile (sendResult : Except String GetUserResponse) : List DoneCall :=
  match sendResult with
  | .ok resp =>
    match buildProfile resp with
    | .ok profile => [{ err := none, profile := some profile }]
    | .error e => [{ err := some e, profile := none }]
  | .error msg => [{ err := some (JsError.providerError msg), profile := none }]

/-- The value assigned to a name by the last attribute of the list bearing
that name, threading an accumulator through the list in order. -/
def lastValueFrom (acc : Option String) (l : List Attribute) (n : String) : Option String :=
  match l with
  | [] => acc
  | x :: xs => lastValueFrom (if x.Name = n then some x.Value else acc) xs n

/-- The value of the last attribute of the list named n, if any. -/
def lastValueFor (l : List Attribute) (n : String) : Option String :=
  lastValueFrom none l n

/-- The options object handed to the Strategy constructor. Its fields are
the keys the constructor's destructuring pattern reads (clientDomain,
clientID, clientSecret, callbackURL, passReqToCallback, clientRegion)
together with region, the key the source's own option documentation and
usage example tell callers to supply. Every field is optional because a
JavaScript caller may omit any key. -/
structure StrategyConfig where
  clientDomain : Option String
  clientID : Option String
  clientSecret : Option String
  callbackURL : Option String
  passReqToCallback : Option Bool
  clientRegion : Option String
  region : Option String
deriving DecidableEq

/-- JavaScript template-literal interpolation of a possibly-undefined
string value: an undefined value prints as the text undefined. -/
def jsTemplate : Option String → String
  | some s => s
  | none => "undefined"

/-- The options record the constructor builds and passes to the
OAuth2Strategy base-class call. -/
structure StrategyOptions where
  authorizationURL : String
  clientID : Option String
  clientSecret : Option String
  callbackURL : Option String
  passReqToCallback : Option Bool
  tokenURL : String
deriving DecidableEq

/-- The option derivation performed by the constructor: the two endpoint
URLs are the configured domain with the fixed suffixes appended (template
literals), and the remaining fields are passed through unchanged. -/
def mkStrategyOptions (cfg : StrategyConfig) : StrategyOptions :=
  { authorizationURL := jsTemplate cfg.clientDomain ++ "/oauth2/authorize",
    clientID := cfg.clientID,
    clientSecret := cfg.clientSecret,
    callbackURL := cfg.callbackURL,
    passReqToCallback := cfg.passReqToCallback,
    tokenURL := jsTemplate cfg.clientDomain ++ "/oauth2/token" }

/-- Modelled from the spec: whether a string parses as a URL. The spec
speaks of configuration rejected when a URL is unparseable; the model
takes a string to be a parseable URL exactly when it carries an explicit
http or https scheme prefix. -/
def isParseableURL (s : String) : Bool :=
  "http://".data.isPrefixOf s.data || "https://".data.isPrefixOf s.data

/-- Modelled from the spec: the validation performed by the external
passport-oauth2 base-class constructor, which is not part of this
repository's sources. Per the spec, construction fails fast with a
construction error if required configuration fields (domain, client
id/secret, callback URL) are missing or malformed (for example an
unparseable URL); the base class sees the domain only through the two
derived endpoint URLs it receives in the options record. -/
def oauth2StrategyValidate (o : StrategyOptions) : Except JsError Unit :=
  if isParseableURL o.authorizationURL then
    if isParseableURL o.tokenURL then
      match o.clientID with
      | none => .error (.typeError "OAuth2Strategy requires a clientID option")
      | some _ =>
        match o.clientSecret with
        | none => .error (.typeError "OAuth2Strategy requires a clientSecret option")
        | some _ =>
          match o.callbackURL with
          | none => .error (.typeError "OAuth2Strategy requires a callbackURL option")
          | some cb =>
            if isParseableURL cb then .ok ()
            else .error (.typeError "OAuth2Strategy requires a parseable callbackURL option")
    else .error (.typeError "OAuth2Strategy requires a parseable tokenURL option")
  else .error (.typeError "OAuth2Strategy requires a parseable authorizationURL option")

/-- The identity-provider API client, recording the region value it was
constructed with (none models an undefined region). -/
structure CognitoClient where
  region : Option String
deriving DecidableEq

/-- The constructed Strategy instance: the options delegated to the base
class, the Cognito client instantiated by the constructor, and the
registered strategy name. -/
structure Strategy where
  options : StrategyOptions
  cognitoClient : CognitoClient
  name : String
deriving DecidableEq

/-- The Strategy constructor: derive the options record, delegate to the
base-class constructor (validation modelled from the spec), then
instantiate the Cognito client with the destructured clientRegion key and
register the strategy name. No network activity is involved at any point
of construction. -/
def mkStrategy (cfg : StrategyConfig) : Except JsError Strategy :=
  let options := mkStrategyOptions cfg
  match oauth2StrategyValidate options with
  | .error e => .error e
  | .ok _ =>
    .ok { options := options,
          cognitoClient := { region := cfg.clientRegion },
          name := "cognito-oauth2" }

/-- Strategy.prototype.userProfile viewed as a state-passing function on
the Strategy record: the body reads this.cognitoClient to issue the send
(the transport is abstracted by the send argument, yielding the settled
outcome) and assigns no field of this, so the instance after the call is
the instance before it. -/
def userProfileS (s : Strategy)
    (send : CognitoClient → String → Except String GetUserResponse)
    (tok : String) : List DoneCall × Strategy :=
  (userProfile (send s.cognitoClient tok), s)

/-- The configuration of the usage example in the source's documentation
comment, which supplies the documented region key (and therefore no
clientRegion key). -/
def docExampleConfig : StrategyConfig :=
  { clientDomain := some "https://myapp.auth.us-west-2.amazoncognito.com",
    clientID := some "123-456-789",
    clientSecret := some "shhh-its-a-secret",
    callbackURL := some "https://myapp.com/auth/cognito/callback",
    passReqToCallback := none,
    clientRegion := none,
    region := some "us-west-2" }

/-- A configuration whose domain is not a parseable URL yet concatenates
with the fixed suffixes into parseable endpoint URLs. -/
def slashDomainConfig : StrategyConfig :=
  { clientDomain := some "http:/",
    clientID := some "client-id",
    clientSecret := some "client-secret",
    callbackURL := some "https://app.example.com/cb",
    passReqToCallback := none,
    clientRegion := some "us-west-2",
    region := none }

/-- A concrete strategy instance used when exercising theorems about the
userProfile method on a particular receiver. -/
def sampleStrategy : Strategy :=
  { options := mkStrategyOptions docExampleConfig,
    cognitoClient := { region := none },
    name := "cognito-oauth2" }

/-! Basic lemmas about the object model. -/

@[simp]
theorem keys_nil : keys [] = [] := rfl

@[simp]
theorem keys_cons (k : String) (v : Option String) (rest : Profile) :
    keys ((k, v) :: rest) = k :: keys rest := rfl

theorem keys_objSet_of_mem {p : Profile} {k : String} (v : Option String)
    (h : k ∈ keys p) : keys (objSet p k v) = keys p := by
  induction p with
  | nil => simp at h
  | cons e rest ih =>
    obtain ⟨k', v'⟩ := e
    by_cases hk : k' = k
    · simp [objSet, hk]
    · simp only [keys_cons, List.mem_cons] at h
      rcases h with h | h

      · exact absurd h.symm hk
      · simp [objSet, hk, ih h]

theorem keys_objSet_of_not_mem {p : Profile} {k : String} (v : Option String)
    (h : k ∉ keys p) : keys (objSet p k v) = keys p ++ [k] := by
  induction p with
  | nil => simp [objSet]
  | cons e rest ih =>
    obtain ⟨k', v'⟩ := e
    simp only [keys_cons, List.mem_cons] at h
    push_neg at h
    simp [objSet, Ne.symm h.1, ih h.2]

theorem mem_keys_objSet {p : Profile} {k : String} {v : Option String} {a : String} :
    a ∈ keys (objSet p k v) ↔ a ∈ keys p ∨ a = k := by
  by_cases h : k ∈ keys p
  · rw [keys_objSet_of_mem v h]
    exact ⟨Or.inl, fun h2 => h2.elim id fun ha => ha ▸ h⟩
  · rw [keys_objSet_of_not_mem v h]
    simp

theorem nodup_keys_objSet {p : Profile} {k : String} (v : Option String)
    (h : (keys p).Nodup) : (keys (objSet p k v)).Nodup := by
  by_cases hk : k ∈ keys p
  · rwa [keys_objSet_of_mem v hk]
  · rw [keys_objSet_of_not_mem v hk]
    simp [List.nodup_append, h, hk]

theorem objGet_objSet_self (p : Profile) (k : String) (v : Option String) :
    objGet (objSet p k v) k = some v := by
  induction p with
  | nil => simp [objSet, objGet]
  | cons e rest ih =>
    obtain ⟨k', v'⟩ := e
    by_cases hk : k' = k
    · simp [objSet, hk, objGet]
    · simp [objSet, hk, objGet, ih]

theorem objGet_objSet_of_ne {a k : String} (h : a ≠ k) (p : Profile) (v : Option String) :
    objGet (objSet p k v) a = objGet p a := by
  induction p with
  | nil => simp [objSet, objGet, Ne.symm h]
  | cons e rest ih =>
    obtain ⟨k', v'⟩ := e
    by_cases hk : k' = k
    · subst hk
      simp [objSet, objGet, Ne.symm h]
    · by_cases ha : k' = a
      · subst ha
        simp [objSet, objGet, hk]
      · simp [objSet, objGet, hk, ha, ih]

@[simp]
theorem addAttrs_nil (p : Profile) : addAttrs p [] = p := rfl

theorem addAttrs_cons (p : Profile) (x : Attribute) (xs : List Attribute) :
    addAttrs p (x :: xs) = addAttrs (objSet p x.Name (some x.Value)) xs := rfl

theorem mem_keys_addAttrs {l : List Attribute} {a : String} (p : Profile) :
    a ∈ keys (addAttrs p l) ↔ a ∈ keys p ∨ a ∈ l.map Attribute.Name := by
  induction l generalizing p with
  | nil => simp
  | cons x xs ih =>
    rw [addAttrs_cons, ih]
    simp only [mem_keys_objSet, List.map_cons, List.mem_cons]
    tauto

theorem nodup_keys_addAttrs {p : Profile} (l : List Attribute)
    (h : (keys p).Nodup) : (keys (addAttrs p l)).Nodup := by
  induction l generalizing p with
  | nil => simpa
  | cons x xs ih =>
    rw [addAttrs_cons]
    exact ih (nodup_keys_objSet _ h)

theorem lastValueFrom_eq (l : List Attribute) (a : String) (acc : Option String) :
    lastValueFrom acc l a = match lastValueFor l a with
      | some v => some v
      | none => acc := by
  induction l generalizing acc with
  | nil => simp [lastValueFrom, lastValueFor]
  | cons x xs ih =>
    show lastValueFrom _ xs a = _
    rw [ih]
    have h2 : lastValueFor (x :: xs) a = match lastValueFor xs a with
        | some v => some v
        | none => if x.Name = a then some x.Value else none := by
      show lastValueFrom _ xs a = _
      rw [ih]
    rw [h2]
    cases lastValueFor xs a <;> by_cases hx : x.Name = a <;> simp [hx]

theorem lastValueFor_cons (x : Attribute) (xs : List Attribute) (a : String) :
    lastValueFor (x :: xs) a = match lastValueFor xs a with
      | some v => some v
      | none => if x.Name = a then some x.Value else none := by
  show lastValueFrom _ xs a = _
  rw [lastValueFrom_eq]

theorem lastValueFrom_of_not_mem {l : List Attribute} {a : String}
    (h : a ∉ l.map Attribute.Name) (acc : Option String) : lastValueFrom acc l a = acc := by
  induction l generalizing acc with
  | nil => rfl
  | cons x xs ih =>
    simp only [List.map_cons, List.mem_cons] at h
    push_neg at h
    show lastValueFrom _ xs a = _
    rw [if_neg (fun he => h.1 he.symm)]
    exact ih h.2 acc

theorem lastValueFor_of_not_mem {l : List Attribute} {a : String}
    (h : a ∉ l.map Attribute.Name) : lastValueFor l a = none :=
  lastValueFrom_of_not_mem h none

theorem lastValueFor_isSome_of_mem {l : List Attribute} {a : String}
    (h : a ∈ l.map Attribute.Name) : ∃ v, lastValueFor l a = some v := by
  induction l with
  | nil => simp at h
  | cons x xs ih =>
    rw [lastValueFor_cons]
    by_cases hmem : a ∈ xs.map Attribute.Name
    · obtain ⟨v, hv⟩ := ih hmem
      exact ⟨v, by rw [hv]⟩
    · have hax : x.Name = a := by
        simp only [List.map_cons, List.mem_cons] at h
        rcases h with h | h
        · exact h.symm
        · exact absurd h hmem
      rw [lastValueFor_of_not_mem hmem]
      exact ⟨x.Value, by simp [hax]⟩

theorem lastValueFrom_mem {l : List Attribute} {a : String} {v : String} {acc : Option String}
    (h : lastValueFrom acc l a = some v) :
    (∃ x, x ∈ l ∧ x.Name = a ∧ x.Value = v) ∨ acc = some v := by
  induction l generalizing acc with
  | nil => exact Or.inr h
  | cons x xs ih =>
    rcases ih h with ⟨y, hy, hn, hv⟩ | hacc
    · exact Or.inl ⟨y, List.mem_cons_of_mem _ hy, hn, hv⟩
    · by_cases hx : x.Name = a
      · rw [if_pos hx] at hacc
        exact Or.inl ⟨x, List.mem_cons_self _ _, hx, Option.some_injective _ hacc⟩
      · rw [if_neg hx] at hacc
        exact Or.inr hacc

theorem lastValueFor_mem {l : List Attribute} {a : String} {v : String}
    (h : lastValueFor l a = some v) : ∃ x, x ∈ l ∧ x.Name = a ∧ x.Value = v := by
  rcases lastValueFrom_mem h with hmem | hacc
  · exact hmem
  · exact absurd hacc (by simp)

theorem objGet_addAttrs (l : List Attribute) (a : String) (p : Profile) :
    objGet (addAttrs p l) a = match lastValueFor l a with
      | some v => some (some v)
      | none => objGet p a := by
  induction l generalizing p with
  | nil => simp [lastValueFor, lastValueFrom]
  | cons x xs ih =>
    rw [addAttrs_cons, ih, lastValueFor_cons]
    cases hv : lastValueFor xs a
    · by_cases hx : x.Name = a
      · subst hx
        simp [objGet_objSet_self]
      · simp [hx, objGet_objSet_of_ne (fun he => hx he.symm)]
    · simp

/-! Claim theorems. -/

/-- C1: for every fulfilled GetUser response carrying a username and an
ordered attribute list, userProfile invokes the callback once with no
error and a profile whose key set is the username key together with the
attribute names, hence at most N+1 keys with equality exactly when no
names collide, whose value at each attribute name is the corresponding
API attribute value, whose username value is the response username
whenever no attribute shadows it, and which on an empty attribute list is
exactly the singleton username object. -/
theorem C1_profile_shape (u : String) (attrs : List Attribute) :
    ∃ p, userProfile (.ok ⟨some u, some attrs⟩) = [{ err := none, profile := some p }] ∧
      "username" ∈ keys p ∧
      (keys p).Nodup ∧
      (∀ a, a ∈ keys p ↔ a = "username" ∨ a ∈ attrs.map Attribute.Name) ∧
      (keys p).length ≤ attrs.length + 1 ∧
      (("username" :: attrs.map Attribute.Name).Nodup → (keys p).length = attrs.length + 1) ∧
      (∀ a, a ∈ attrs.map Attribute.Name →
        ∃ x, x ∈ attrs ∧ x.Name = a ∧ objGet p a = some (some x.Value)) ∧
      ("username" ∉ attrs.map Attribute.Name → objGet p "username" = some (some u)) ∧
      (attrs = [] → p = [("username", some u)]) := by
  have hmem : ∀ a, a ∈ keys (addAttrs [("username", some u)] attrs) ↔
      a = "username" ∨ a ∈ attrs.map Attribute.Name := by
    intro a
    rw [mem_keys_addAttrs]
    simp
  have hnd : (keys (addAttrs [("username", some u)] attrs)).Nodup :=
    nodup_keys_addAttrs attrs (by simp)
  refine ⟨addAttrs [("username", some u)] attrs, rfl, (hmem "username").mpr (Or.inl rfl),
    hnd, hmem, ?_, ?_, ?_, ?_, ?_⟩
  · have hsub : (keys (addAttrs [("username", some u)] attrs)).toFinset ⊆
        ("username" :: attrs.map Attribute.Name).toFinset := by
      intro a ha
      rw [List.mem_toFinset] at ha ⊢
      rcases (hmem a).mp ha with h | h
      · exact h ▸ List.mem_cons_self _ _
      · exact List.mem_cons_of_mem _ h
    calc (keys (addAttrs [("username", some u)] attrs)).length
        = (keys (addAttrs [("username", some u)] attrs)).toFinset.card :=
          (List.toFinset_card_of_nodup hnd).symm
      _ ≤ ("username" :: attrs.map Attribute.Name).toFinset.card := Finset.card_le_card hsub
      _ ≤ ("username" :: attrs.map Attribute.Name).length := List.toFinset_card_le _
      _ = attrs.length + 1 := by simp
  · intro hnodup
    have he : (keys (addAttrs [("username", some u)] attrs)).toFinset =
        ("username" :: attrs.map Attribute.Name).toFinset := by
      apply List.toFinset.ext
      intro a
      rw [hmem a, List.mem_cons]
    calc (keys (addAttrs [("username", some u)] attrs)).length
        = (keys (addAttrs [("username", some u)] attrs)).toFinset.card :=
          (List.toFinset_card_of_nodup hnd).symm
      _ = ("username" :: attrs.map Attribute.Name).toFinset.card := by rw [he]
      _ = ("username" :: attrs.map Attribute.Name).length := List.toFinset_card_of_nodup hnodup
      _ = attrs.length + 1 := by simp
  · intro a ha
    obtain ⟨v, hv⟩ := lastValueFor_isSome_of_mem ha
    obtain ⟨x, hx, hxn, hxv⟩ := lastValueFor_mem hv
    refine ⟨x, hx, hxn, ?_⟩
    rw [objGet_addAttrs, hv, hxv]
  · intro hnm
    rw [objGet_addAttrs, lastValueFor_of_not_mem hnm]
    simp [objGet]
  · intro h
    subst h
    rfl

/-- Witness for C1 at the empty attribute list: the profile is exactly
the singleton username object. -/
theorem C1_profile_shape_witness :
    userProfile (.ok ⟨some "alice", some []⟩) =
      [{ err := none, profile := some [("username", some "alice")] }] := by
  obtain ⟨p, hcall, -, -, -, -, -, -, -, hemp⟩ := C1_profile_shape "alice" []
  rw [hemp rfl] at hcall
  exact hcall

/-- C2: whenever the GetUser call rejects, the callback receives a
non-null error and a null profile, and on no path whatsoever does a
callback invocation carry both an error and a profile. -/
theorem C2_rejection_error :
    (∀ e, userProfile (.error e) =
      [{ err := some (.providerError e), profile := none }]) ∧
    (∀ r dc, dc ∈ userProfile r → dc.err.isSome → dc.profile = none) := by
  refine ⟨fun e => rfl, ?_⟩
  intro r dc hmem herr
  match r with
  | .error e =>
    simp only [userProfile, List.mem_singleton] at hmem
    subst hmem
    rfl
  | .ok resp =>
    cases hb : buildProfile resp with
    | ok p =>
      simp only [userProfile, hb, List.mem_singleton] at hmem
      subst hmem
      simp at herr
    | error e =>
      simp only [userProfile, hb, List.mem_singleton] at hmem
      subst hmem
      rfl

/-- Witness for C2 at a concrete rejection. -/
theorem C2_rejection_error_witness :
    userProfile (.error "bad-tok") =
      [{ err := some (.providerError "bad-tok"), profile := none }] ∧
    ({ err := some (.providerError "bad-tok"), profile := none } : DoneCall).profile = none := by
  refine ⟨C2_rejection_error.1 "bad-tok", ?_⟩
  refine C2_rejection_error.2 (.error "bad-tok") _ ?_ ?_
  · rw [C2_rejection_error.1 "bad-tok"]
    exact List.mem_singleton_self _
  · rfl

/-- C3: the profile value at a duplicated attribute name is the value of
the last entry of the list with that name; the concrete alice scenario
produces exactly the expected profile with a success callback; and an
attribute literally named username overwrites the canonical field the
same way. -/
theorem C3_last_write_wins :
    (∀ (u : String) (attrs : List Attribute) (n v : String),
      lastValueFor attrs n = some v →
      ∃ p, userProfile (.ok ⟨some u, some attrs⟩) = [{ err := none, profile := some p }] ∧
        objGet p n = some (some v)) ∧
    userProfile (.ok ⟨some "alice", some [⟨"email", "a@x.com"⟩, ⟨"email", "a2@x.com"⟩]⟩) =
      [{ err := none,
         profile := some [("username", some "alice"), ("email", some "a2@x.com")] }] ∧
    (∀ (u : String) (attrs : List Attribute) (v : String),
      lastValueFor attrs "username" = some v →
      ∃ p, userProfile (.ok ⟨some u, some attrs⟩) = [{ err := none, profile := some p }] ∧
        objGet p "username" = some (some v)) := by
  refine ⟨?_, by decide, ?_⟩
  · intro u attrs n v hv
    exact ⟨_, rfl, by rw [objGet_addAttrs, hv]⟩
  · intro u attrs v hv
    exact ⟨_, rfl, by rw [objGet_addAttrs, hv]⟩

/-- Witness for C3 at the duplicated email list. -/
theorem C3_last_write_wins_witness :
    objGet [("username", some "bob"), ("email", some "a2@x.com")] "email" =
      some (some "a2@x.com") := by
  obtain ⟨p, hp, hg⟩ :=
    C3_last_write_wins.1 "bob" [⟨"email", "a@x.com"⟩, ⟨"email", "a2@x.com"⟩] "email"
      "a2@x.com" (by decide)
  have h2 : userProfile (.ok ⟨some "bob", some [⟨"email", "a@x.com"⟩, ⟨"email", "a2@x.com"⟩]⟩) =
      [{ err := none,
         profile := some [("username", some "bob"), ("email", some "a2@x.com")] }] := by
    decide
  rw [h2] at hp
  simp only [List.cons.injEq, DoneCall.mk.injEq, Option.some.injEq, and_true, true_and] at hp
  rw [← hp] at hg
  exact hg

/-- C4 as stated fails on the code: a response with no username field is
not surfaced as an error; the callback is invoked with no error and a
profile whose username value is undefined. -/
theorem C4_missing_username_counterexample :
    userProfile (.ok ⟨none, some [⟨"email", "a@x.com"⟩]⟩) =
      [{ err := none, profile := some [("username", none), ("email", some "a@x.com")] }] := by
  decide

/-- C4 amended: a response whose attribute list is missing or not
iterable surfaces an error to the callback with a null profile, but a
missing username field is not validated: the callback receives a success
profile carrying an undefined username value. -/
theorem C4_malformed_response_amended :
    (∀ resp : GetUserResponse, resp.UserAttributes = none →
      userProfile (.ok resp) =
        [{ err := some (.typeError "getUserResponse.UserAttributes is not iterable"),
           profile := none }]) ∧
    (∀ attrs : List Attribute,
      userProfile (.ok ⟨none, some attrs⟩) =
        [{ err := none, profile := some (addAttrs [("username", none)] attrs) }]) := by
  refine ⟨?_, fun attrs => rfl⟩
  intro resp h
  simp [userProfile, buildProfile, h]

/-- Witness for the amended C4 at a response with no attribute list. -/
theorem C4_malformed_response_amended_witness :
    userProfile (.ok ⟨some "u", none⟩) =
      [{ err := some (.typeError "getUserResponse.UserAttributes is not iterable"),
         profile := none }] :=
  C4_malformed_response_amended.1 ⟨some "u", none⟩ rfl

/-- C5: once the GetUser call settles, the callback is invoked exactly
once, with either a success profile and no error or an error and no
profile. -/
theorem C5_callback_exactly_once (r : Except String GetUserResponse) :
    ∃ dc : DoneCall, userProfile r = [dc] ∧
      ((dc.err = none ∧ ∃ p, dc.profile = some p) ∨
       (∃ e, dc.err = some e ∧ dc.profile = none)) := by
  match r with
  | .error e => exact ⟨_, rfl, Or.inr ⟨_, rfl, rfl⟩⟩
  | .ok resp =>
    cases hb : buildProfile resp with
    | ok p =>
      refine ⟨{ err := none, profile := some p }, ?_, Or.inl ⟨rfl, p, rfl⟩⟩
      simp [userProfile, hb]
    | error e =>
      refine ⟨{ err := some e, profile := none }, ?_, Or.inr ⟨e, rfl, rfl⟩⟩
      simp [userProfile, hb]

theorem validate_ok_clauses {o : StrategyOptions} {u : Unit}
    (hok : oauth2StrategyValidate o = .ok u) :
    isParseableURL o.authorizationURL = true ∧ isParseableURL o.tokenURL = true ∧
      o.clientID ≠ none ∧ o.clientSecret ≠ none ∧
      (∀ cb, o.callbackURL = some cb → isParseableURL cb = true) ∧ o.callbackURL ≠ none := by
  obtain ⟨aU, cID, cS, cbU, prq, tU⟩ := o
  simp only [oauth2StrategyValidate] at hok
  cases hA : isParseableURL aU <;> rw [hA] at hok
  · exact absurd hok (by simp)
  cases hT : isParseableURL tU <;> rw [hT] at hok
  · exact absurd hok (by simp)
  match hID : cID with
  | none => simp at hok
  | some cid =>
  match hS : cS with
  | none => simp at hok
  | some sec =>
  match hCB : cbU with
  | none => simp at hok
  | some cb =>
  cases hP : isParseableURL cb
  · simp [hP] at hok
  · refine ⟨rfl, rfl, by simp, by simp, ?_, by simp⟩
    intro cb2 h2
    have h3 : cb2 = cb := by
      simpa using h2.symm
    rw [h3]
    exact hP

/-- C6 as stated fails on the code: a malformed (unparseable) domain is
seen by the validating base class only through the derived endpoint URLs,
so a domain that is itself no parseable URL but concatenates with the
fixed suffixes into parseable URLs passes construction. -/
theorem C6_malformed_domain_counterexample :
    slashDomainConfig.clientDomain = some "http:/" ∧
    isParseableURL "http:/" = false ∧
    mkStrategy slashDomainConfig =
      .ok { options := { authorizationURL := "http://oauth2/authorize",
                         clientID := some "client-id",
                         clientSecret := some "client-secret",
                         callbackURL := some "https://app.example.com/cb",
                         passReqToCallback := none,
                         tokenURL := "http://oauth2/token" },
            cognitoClient := { region := some "us-west-2" },
            name := "cognito-oauth2" } :=
  ⟨rfl, by decide, by rfl⟩

/-- C6 amended: construction fails deterministically, with a construction
error and before any network activity, whenever the domain is missing,
the authorization endpoint URL derived from the domain is unparseable,
the client identifier, the client secret or the callback URL is missing,
or the callback URL is unparseable; a malformed domain as such is only
detected through the derived endpoint URLs. -/
theorem C6_construction_failfast_amended (cfg : StrategyConfig)
    (h : cfg.clientDomain = none ∨
         isParseableURL (jsTemplate cfg.clientDomain ++ "/oauth2/authorize") = false ∨
         cfg.clientID = none ∨ cfg.clientSecret = none ∨ cfg.callbackURL = none ∨
         (∃ cb, cfg.callbackURL = some cb ∧ isParseableURL cb = false)) :
    ∃ e, mkStrategy cfg = .error e := by
  cases hm : mkStrategy cfg with
  | error e => exact ⟨e, rfl⟩
  | ok s =>
    exfalso
    have hval : ∃ u, oauth2StrategyValidate (mkStrategyOptions cfg) = .ok u := by
      simp only [mkStrategy] at hm
      cases hv : oauth2StrategyValidate (mkStrategyOptions cfg) with
      | error e => rw [hv] at hm; exact absurd hm (by simp)
      | ok u => exact ⟨u, rfl⟩
    obtain ⟨u, hok⟩ := hval
    obtain ⟨hA, hT, hID, hS, hCBp, hCBn⟩ := validate_ok_clauses hok
    rcases h with h | h | h | h | h | ⟨cb, hcb, hcbp⟩
    · rw [show (mkStrategyOptions cfg).authorizationURL =
          jsTemplate cfg.clientDomain ++ "/oauth2/authorize" from rfl, h] at hA
      exact absurd hA (by decide)
    · rw [show (mkStrategyOptions cfg).authorizationURL =
          jsTemplate cfg.clientDomain ++ "/oauth2/authorize" from rfl, h] at hA
      exact absurd hA (by simp)
    · exact hID h
    · exact hS h
    · exact hCBn h
    · have := hCBp cb hcb
      rw [hcbp] at this
      exact absurd this (by simp)

/-- Witness for the amended C6 at a configuration with no client
identifier. -/
theorem C6_construction_failfast_amended_witness :
    mkStrategy
      { clientDomain := some "https://myapp.auth.us-west-2.amazoncognito.com",
        clientID := none,
        clientSecret := some "shhh-its-a-secret",
        callbackURL := some "https://myapp.com/auth/cognito/callback",
        passReqToCallback := none,
        clientRegion := some "us-west-2",
        region := none } =
      .error (.typeError "OAuth2Strategy requires a clientID option") := by
  obtain ⟨e, he⟩ :=
    C6_construction_failfast_amended
      { clientDomain := some "https://myapp.auth.us-west-2.amazoncognito.com",
        clientID := none,
        clientSecret := some "shhh-its-a-secret",
        callbackURL := some "https://myapp.com/auth/cognito/callback",
        passReqToCallback := none,
        clientRegion := some "us-west-2",
        region := none } (Or.inr (Or.inr (Or.inl rfl)))
  have h2 : (Except.error e : Except JsError Strategy) =
      .error (.typeError "OAuth2Strategy requires a clientID option") := by
    rw [← he]
    rfl
  injection h2 with h3
  rw [he, h3]

/-- C7: for every domain supplied at construction, the derived
authorization endpoint is the domain followed by the authorize suffix and
the derived token endpoint is the domain followed by the token suffix. -/
theorem C7_endpoint_urls (d : String) (cid cs cb : Option String) (prq : Option Bool)
    (cr rg : Option String) :
    (mkStrategyOptions ⟨some d, cid, cs, cb, prq, cr, rg⟩).authorizationURL =
        d ++ "/oauth2/authorize" ∧
    (mkStrategyOptions ⟨some d, cid, cs, cb, prq, cr, rg⟩).tokenURL =
        d ++ "/oauth2/token" :=
  ⟨rfl, rfl⟩

/-- C8: evaluating the constructor at the configuration of the source's
own documentation example, which supplies the documented region key, shows
that the Cognito client is created with an undefined region, because the
constructor destructures the undocumented clientRegion key instead. -/
theorem C8_region_option_ignored :
    docExampleConfig.region = some "us-west-2" ∧
    mkStrategy docExampleConfig =
      .ok { options := mkStrategyOptions docExampleConfig,
            cognitoClient := { region := none },
            name := "cognito-oauth2" } :=
  ⟨rfl, by rfl⟩

/-- C9: userProfile is a total function of the settled send outcome (no
synchronous throw escapes to the caller), and every exception raised by
the fulfilment handler while processing the response is delivered to the
callback as an error with a null profile. -/
theorem C9_no_synchronous_throw :
    (∀ (resp : GetUserResponse) (e : JsError), buildProfile resp = .error e →
      userProfile (.ok resp) = [{ err := some e, profile := none }]) ∧
    (∀ r, userProfile r ≠ []) := by
  constructor
  · intro resp e h
    simp [userProfile, h]
  · intro r
    match r with
    | .error e => simp [userProfile]
    | .ok resp => cases hb : buildProfile resp <;> simp [userProfile, hb]

/-- Witness for C9 at a response whose attribute list is missing, the
case in which the for-of loop raises a TypeError. -/
theorem C9_no_synchronous_throw_witness :
    userProfile (.ok ⟨some "w", none⟩) =
      [{ err := some (.typeError "getUserResponse.UserAttributes is not iterable"),
         profile := none }] :=
  C9_no_synchronous_throw.1 ⟨some "w", none⟩ _ rfl

/-- C10: an invocation of userProfile leaves every field of the Strategy
instance unchanged, its callback invocations are determined solely by the
settled outcome of the send on the instance's own client, and therefore
repeated invocations are mutually independent: a second call after a
first behaves exactly as a second call alone, and two calls observing
equal send outcomes produce equal profiles. -/
theorem C10_userProfile_frame (s : Strategy)
    (send : CognitoClient → String → Except String GetUserResponse) (tok : String) :
    (userProfileS s send tok).2 = s ∧
    (userProfileS s send tok).1 = userProfile (send s.cognitoClient tok) ∧
    (∀ tok2, userProfileS (userProfileS s send tok).2 send tok2 = userProfileS s send tok2) ∧
    (∀ (s2 : Strategy) (tok2 : String), send s.cognitoClient tok = send s2.cognitoClient tok2 →
      (userProfileS s send tok).1 = (userProfileS s2 send tok2).1) := by
  refine ⟨rfl, rfl, fun tok2 => rfl, fun s2 tok2 h => ?_⟩
  simp [userProfileS, h]

/-- Witness for C10: two invocations on the sample strategy whose sends
settle identically produce the same callback invocations. -/
theorem C10_userProfile_frame_witness :
    (userProfileS sampleStrategy (fun _ _ => .error "down") "tok-1").1 =
      (userProfileS sampleStrategy (fun _ _ => .error "down") "tok-2").1 :=
  (C10_userProfile_frame sampleStrategy (fun _ _ => .error "down") "tok-1").2.2.2
    sampleStrategy "tok-2" rfl

end CognitoOAuth2
